import Mathlib

/-!
Verification of the ahram-portal-gateway repository: a storefront menu
component (`src/components/Menu.tsx`) and a vendor menu-administration
component (`MenuManagement`).  The JavaScript/TypeScript code is shallowly
embedded below: remote responses become explicit parameters, component
state becomes a record, and JavaScript numbers become an explicit model
type `JsNum` (NaN / ±Infinity / a finite rational).
-/

set_option maxHeartbeats 1000000

namespace Gateway

/-! ## JavaScript number model

`JsNum` models a JavaScript `number` as seen by this code base: either
NaN, a signed infinity, or a finite value (idealised as a rational; every
finite IEEE-754 double is a rational whose denominator divides a power of
ten).  `jsParseFloat` models the `parseFloat` builtin used by
`MenuManagement.handleSubmit`; `jsNumToString` models
`Number.prototype.toString` as used by `MenuManagement.handleEdit`
(exact shortest decimal expansion, no exponent notation). -/

inductive JsNum where
  | nan : JsNum
  | inf (neg : Bool) : JsNum
  | finite (q : ℚ) : JsNum
deriving DecidableEq, Repr

/-- Numeric value of a big-endian decimal digit list, `parseInt`-style. -/
def beVal (ds : List ℕ) : ℕ := ds.foldl (fun a d => 10 * a + d) 0

/-- Value of a big-endian digit list read as a fraction `0.d₀d₁…`. -/
def fracVal (ds : List ℕ) : ℚ := ds.foldr (fun d a => ((d : ℚ) + a) / 10) 0

/-- Numeric value of a decimal digit character. -/
def digitVal (c : Char) : ℕ := c.toNat - 48

/-- The character for a decimal digit. -/
def charOfDigit (d : ℕ) : Char := Char.ofNat (48 + d)

/-- Split a leading run of decimal digit characters from the input,
returning their values (big-endian) and the remaining characters. -/
def parseDigits : List Char → List ℕ × List Char
  | [] => ([], [])
  | c :: cs =>
    if c.isDigit then
      let p := parseDigits cs
      (digitVal c :: p.1, p.2)
    else ([], c :: cs)

/-- Consume an optional leading sign, returning whether it was `-`. -/
def parseSign (cs : List Char) : Bool × List Char :=
  match cs with
  | [] => (false, [])
  | c :: r =>
    if c = '-' then (true, r)
    else if c = '+' then (false, r)
    else (false, c :: r)

/-- The characters of the literal `Infinity`. -/
def infChars : List Char := ['I', 'n', 'f', 'i', 'n', 'i', 't', 'y']

/-- Optional fractional part: digits after a leading `.`, if present. -/
def parseFrac (cs : List Char) : List ℕ × List Char :=
  match cs with
  | [] => ([], [])
  | c :: r => if c = '.' then parseDigits r else ([], c :: r)

/-- Optional exponent part after the mantissa (`e`/`E`, optional sign,
digits); a dangling `e` with no digits contributes exponent `0`, matching
the longest-valid-prefix rule of `parseFloat`. -/
def parseExpPart (cs : List Char) : ℤ :=
  match cs with
  | [] => 0
  | c :: r =>
    if c = 'e' ∨ c = 'E' then
      let p := parseSign r
      let d := parseDigits p.2
      if d.1 = [] then 0
      else if p.1 then -(beVal d.1 : ℤ) else (beVal d.1 : ℤ)
    else 0

/-- The stage of `parseFloat` after whitespace and sign: recognise
`Infinity`, otherwise read `digits [. digits] [exponent]` as the longest
valid prefix; if no digit was read at all the result is NaN. -/
def jsParseAfterSign (neg : Bool) (cs : List Char) : JsNum :=
  if infChars.isPrefixOf cs then .inf neg
  else
    let int := parseDigits cs
    let frac := parseFrac int.2
    if int.1 = [] ∧ frac.1 = [] then .nan
    else
      let mant : ℚ := (beVal int.1 : ℚ) + fracVal frac.1
      let v : ℚ := mant * (10 : ℚ) ^ parseExpPart frac.2
      .finite (if neg then -v else v)

/-- Model of the JavaScript `parseFloat` builtin: skip leading
whitespace, read an optional sign, then parse the rest. -/
def jsParseFloatChars (s : List Char) : JsNum :=
  let cs := s.dropWhile (fun c => c.isWhitespace)
  let sg := parseSign cs
  jsParseAfterSign sg.1 sg.2

def jsParseFloat (s : String) : JsNum := jsParseFloatChars s.data

/-! ### Decimal rendering (`Number.prototype.toString`) -/

/-- Little-endian decimal digits of `n`, with explicit fuel so that the
recursion is structural (the fuel is always at least `n`). -/
def natDigitsAux : ℕ → ℕ → List ℕ
  | 0, _ => []
  | _ + 1, 0 => []
  | fuel + 1, n + 1 => ((n + 1) % 10) :: natDigitsAux fuel ((n + 1) / 10)

/-- Little-endian decimal digits of `n` (empty for `0`). -/
def natDigits (n : ℕ) : List ℕ := natDigitsAux n n

/-- Big-endian decimal digits of `n`, rendering `0` as `[0]`. -/
def natDigitsBE (n : ℕ) : List ℕ :=
  if n = 0 then [0] else (natDigits n).reverse

/-- Decimal character rendering of a natural number. -/
def natToChars (n : ℕ) : List Char := (natDigitsBE n).map charOfDigit

/-- Big-endian digits of a fractional part `m / 10^k`, left-padded with
zeros to width `k`. -/
def fracDigitsBE (k m : ℕ) : List ℕ :=
  List.replicate (k - (natDigits m).length) 0 ++ (natDigits m).reverse

/-- The decimal expansion of a finite value, given the scaling exponent
`k`: sign, integer part, and `k` fractional digits (none when `k = 0`). -/
def renderFinite (q : ℚ) (k : ℕ) : List Char :=
  let sign : List Char := if q < 0 then ['-'] else []
  let n : ℕ := (|q| * (10 : ℚ) ^ k).num.toNat
  if k = 0 then sign ++ natToChars n
  else sign ++ natToChars (n / 10 ^ k) ++ '.' :: (fracDigitsBE k (n % 10 ^ k)).map charOfDigit

/-- Model of `Number.prototype.toString` on the `JsNum` model: NaN and
infinities render to their literals; a finite value renders to its exact
decimal expansion, scaled by the least power of ten clearing the
denominator.  For a denominator that no power of ten clears (impossible
for an IEEE-754 double) a placeholder is produced. -/
def jsNumToChars : JsNum → List Char
  | .nan => ['N', 'a', 'N']
  | .inf neg => (if neg then ['-'] else []) ++ infChars
  | .finite q =>
    match (List.range (|q|.den + 1)).find? (fun k => decide (|q|.den ∣ 10 ^ k)) with
    | none => ['?']
    | some k => renderFinite q k

def jsNumToString (x : JsNum) : String := ⟨jsNumToChars x⟩

/-- JavaScript `s || d` on strings: the empty string is falsy. -/
def strOrDefault (s : Option String) (d : String) : String :=
  match s with
  | none => d
  | some v => if v = "" then d else v

/-- JavaScript `s || null` on a string form field. -/
def strOrNull (s : String) : Option String :=
  if s = "" then none else some s

/-! ## Storefront (`src/components/Menu.tsx`)

The storefront query selects `menu_items` rows with `is_available = true`
together with a join expansion `order_items(quantity, order:orders(status))`.
The component derives a remaining quantity per item and renders a grid. -/

/-- The joined `orders` row carried by each order item. -/
structure OrderRow where
  status : String
deriving DecidableEq, Repr

/-- One element of the `order_items` join expansion: an ordered quantity
and the (possibly missing) parent order. -/
structure OrderItemJoin where
  quantity : ℤ
  order : Option OrderRow
deriving DecidableEq, Repr

/-- A raw `menu_items` row as fetched by the storefront query, with the
`order_items` join (the whole join array may be absent). -/
structure StoreRow where
  id : String
  name : String
  name_ko : Option String
  description : Option String
  description_ko : Option String
  price : ℚ
  image : Option String
  quantity : Option ℤ
  is_available : Bool
  order_items : Option (List OrderItemJoin)
deriving DecidableEq, Repr

/-- The presentation record produced by the storefront `queryFn` map. -/
structure StoreItem where
  id : String
  name : String
  nameKo : Option String
  description : String
  descriptionKo : String
  price : ℚ
  image : String
  remainingQuantity : Option ℤ
deriving DecidableEq, Repr

/-- `totalOrdered` from the storefront `queryFn`: fold over the
`order_items` join, counting a quantity only when the parent order's
status is `completed` or `pending`; a missing join contributes `0`. -/
def totalOrdered (ois : Option (List OrderItemJoin)) : ℤ :=
  match ois with
  | none => 0
  | some l =>
    l.foldl
      (fun sum oi =>
        match oi.order with
        | some o =>
          if o.status = "completed" ∨ o.status = "pending" then sum + oi.quantity
          else sum
        | none => sum)
      0

/-- The status allow-list of the aggregation, as an order-item predicate:
the parent order exists and its status is `completed` or `pending`. -/
def countsTowardStock (oi : OrderItemJoin) : Bool :=
  match oi.order with
  | some o => decide (o.status = "completed" ∨ o.status = "pending")
  | none => false

/-- The per-item map of the storefront `queryFn`: normalise fields and
attach the derived remaining quantity (`max 0 (cap - totalOrdered)` when
a cap exists, unbounded otherwise). -/
def mapStoreItem (r : StoreRow) : StoreItem :=
  { id := r.id
    name := r.name
    nameKo := r.name_ko
    description := strOrDefault r.description ""
    descriptionKo := strOrDefault r.description_ko ""
    price := r.price
    image := strOrDefault r.image "/placeholder.svg"
    remainingQuantity :=
      match r.quantity with
      | some cap => some (max 0 (cap - totalOrdered r.order_items))
      | none => none }

/-- The remote filter of the storefront query: `eq('is_available', true)`. -/
def storefrontSelect (db : List StoreRow) : List StoreRow :=
  db.filter (fun r => r.is_available)

/-- The storefront `queryFn` applied to the remote response: a response
error is rethrown; null or empty data yields an empty list; otherwise
every row is mapped to its presentation record. -/
def storefrontQueryFn (res : Except Unit (Option (List StoreRow))) :
    Except Unit (List StoreItem) :=
  match res with
  | .error e => .error e
  | .ok data =>
    let items := data.getD []
    if items.isEmpty then .ok []
    else .ok (items.map mapStoreItem)

/-- The three-way rendering outcome of the storefront component. -/
inductive MenuView where
  | loadingView : MenuView
  | errorView : MenuView
  | grid (items : List StoreItem) : MenuView
deriving DecidableEq, Repr

/-- What the storefront renders plus how many failure notifications it
surfaces. -/
structure RenderOut where
  view : MenuView
  failureToasts : ℕ
deriving DecidableEq, Repr

/-- The storefront component body after the fetch settles: a query error
renders the inline error block and surfaces one failure toast; a success
renders the grid over the derived items with no toast. -/
def renderAfterFetch (res : Except Unit (Option (List StoreRow))) : RenderOut :=
  match storefrontQueryFn res with
  | .error _ => { view := .errorView, failureToasts := 1 }
  | .ok items => { view := .grid items, failureToasts := 0 }

/-! ## Menu administration (`MenuManagement`)

Component state is a record; each remote interaction's outcome is an
explicit parameter of the corresponding handler. -/

/-- The `formData` state of `MenuManagement`. -/
structure FormData where
  name : String
  name_ko : String
  description : String
  description_ko : String
  price : String
  category : String
  is_available : Bool
deriving DecidableEq, Repr

/-- A `menu_items` row as seen by the administration screen. -/
structure MgmtRow where
  id : String
  vendor_id : String
  name : String
  name_ko : Option String
  description : Option String
  description_ko : Option String
  price : JsNum
  category : String
  is_available : Bool
  image : Option String
deriving DecidableEq, Repr

/-- A toast notification (`variant: 'destructive'` marks failures). -/
structure Toast where
  title : String
  description : String
  destructive : Bool
deriving DecidableEq, Repr

/-- The component state of `MenuManagement`, plus the stream of toasts it
has surfaced. -/
structure AdminState where
  menuItems : List MgmtRow
  loading : Bool
  isDialogOpen : Bool
  editingItem : Option MgmtRow
  selectedImage : Option String
  formData : FormData
  toasts : List Toast
deriving DecidableEq, Repr

/-- `resetForm`'s form value, also the initial `useState` value. -/
def emptyForm : FormData :=
  { name := "", name_ko := "", description := "", description_ko := ""
    price := "", category := "", is_available := true }

/-- The initial component state. -/
def initialAdminState : AdminState :=
  { menuItems := [], loading := true, isDialogOpen := false
    editingItem := none, selectedImage := none, formData := emptyForm
    toasts := [] }

/-- The failure toast of `loadMenuItems`. -/
def loadFailToast : Toast :=
  { title := "Error", description := "Failed to load menu items", destructive := true }

/-- The failure toast of `handleSubmit`. -/
def saveFailToast : Toast :=
  { title := "Error", description := "Failed to save menu item", destructive := true }

/-- The success toast of `handleSubmit`. -/
def saveOkToast (editing : Bool) : Toast :=
  { title := "Success"
    description := "Menu item " ++ (if editing then "updated" else "added") ++ " successfully"
    destructive := false }

/-- How the remote interactions inside `loadMenuItems` can go.  The
vendor lookup and the items query resolve with `{ data, error }` and the
code reads only `data`; `throwEx` stands for either `await` throwing. -/
inductive LoadOutcome where
  | throwEx : LoadOutcome
  | noVendor : LoadOutcome
  | ok (rows : Option (List MgmtRow)) : LoadOutcome
deriving DecidableEq, Repr

/-- `loadMenuItems` as a state transition: on a throw the catch block
surfaces the failure toast; a falsy `vendorData` silently skips the items
query; otherwise the list is set to the returned data (`data || []`).
The `finally` block always clears `loading`. -/
def applyLoad (s : AdminState) (o : LoadOutcome) : AdminState :=
  match o with
  | .throwEx => { s with loading := false, toasts := s.toasts ++ [loadFailToast] }
  | .noVendor => { s with loading := false }
  | .ok rows => { s with loading := false, menuItems := rows.getD [] }

/-- The items query of `loadMenuItems`:
`eq('vendor_id', vid)` then `order('category', ascending)`. -/
def menuItemsQuery (db : List MgmtRow) (vid : String) : List MgmtRow :=
  List.insertionSort (fun a b => a.category ≤ b.category)
    (db.filter (fun r => r.vendor_id = vid))

/-- The file extension as computed by `handleImageUpload`:
`file.name.split('.').pop()`. -/
def fileExt (fname : String) : String :=
  (fname.splitOn ".").getLastD ""

/-- The freshly generated storage path of `handleImageUpload`. -/
def uploadFileName (uuid fname : String) : String :=
  uuid ++ "." ++ fileExt fname

/-- Model of `getPublicUrl` on the `menu_items` bucket. -/
def publicUrlFor (path : String) : String :=
  "/storage/v1/object/public/menu_items/" ++ path

/-- The `imageUrl` chosen by `handleSubmit`: a newly selected image is
uploaded under `uuid.ext` and its public URL used; otherwise the
previously stored reference (`editingItem?.image`) is kept, which is
absent when creating. -/
def submitImageUrl (editingItem : Option MgmtRow) (selectedImage : Option String)
    (uuid : String) : Option String :=
  match selectedImage with
  | some fname => some (publicUrlFor (uploadFileName uuid fname))
  | none => editingItem.bind (fun it => it.image)

/-- The `menuItemData` record built by `handleSubmit`: empty localized
name and descriptions are normalised to null (`|| null`), the price text
is `parseFloat`ed with no validation. -/
def buildMenuItemData (vendorId : String) (fd : FormData) (imageUrl : Option String) :
    MgmtRow :=
  { id := ""
    vendor_id := vendorId
    name := fd.name
    name_ko := strOrNull fd.name_ko
    description := strOrNull fd.description
    description_ko := strOrNull fd.description_ko
    price := jsParseFloat fd.price
    category := fd.category
    is_available := fd.is_available
    image := imageUrl }

/-- The payload `handleSubmit` sends to the remote store from a given
component state (`uuid` is the fresh name used if an image upload runs). -/
def submittedPayload (s : AdminState) (vid uuid : String) : MgmtRow :=
  buildMenuItemData vid s.formData (submitImageUrl s.editingItem s.selectedImage uuid)

/-- How the chain of remote interactions inside `handleSubmit` can go. -/
inductive SubmitOutcome where
  | vendorThrow : SubmitOutcome
  | vendorNotFound : SubmitOutcome
  | uploadThrow : SubmitOutcome
  | saveErr : SubmitOutcome
  | saveOk (reload : LoadOutcome) : SubmitOutcome
deriving DecidableEq, Repr

/-- Whether a submit outcome lands in the catch block. -/
def SubmitOutcome.isFailure : SubmitOutcome → Bool
  | .vendorThrow => true
  | .vendorNotFound => true
  | .uploadThrow => true
  | .saveErr => true
  | .saveOk _ => false

/-- `handleSubmit` as a state transition: any failure along the chain is
caught and surfaces the failure toast, leaving every other piece of state
untouched; a successful save surfaces the success toast, closes the
dialog, clears the edit state, the selected image and the form, then
reloads the list. -/
def handleSubmitStep (s : AdminState) (o : SubmitOutcome) : AdminState :=
  match o with
  | .saveOk lo =>
    applyLoad
      { s with
        toasts := s.toasts ++ [saveOkToast s.editingItem.isSome]
        isDialogOpen := false
        editingItem := none
        selectedImage := none
        formData := emptyForm }
      lo
  | _ => { s with toasts := s.toasts ++ [saveFailToast] }

/-- `handleEdit`'s form population: option fields fall back to the empty
string and the numeric price is rendered back to text. -/
def handleEditForm (item : MgmtRow) : FormData :=
  { name := item.name
    name_ko := item.name_ko.getD ""
    description := item.description.getD ""
    description_ko := item.description_ko.getD ""
    price := jsNumToString item.price
    category := item.category
    is_available := item.is_available }

/-- `handleEdit` as a state transition. -/
def handleEdit (s : AdminState) (item : MgmtRow) : AdminState :=
  { s with
    editingItem := some item
    formData := handleEditForm item
    isDialogOpen := true }

/-! ## Concrete fixtures used to instantiate the theorems -/

/-- An available item with cap 10 and order items of quantity 3 (pending),
2 (completed) and 5 (cancelled). -/
def c1Row : StoreRow :=
  { id := "i1", name := "Bibimbap", name_ko := none, description := none
    description_ko := none, price := 0, image := none, quantity := some 10
    is_available := true
    order_items := some [⟨3, some ⟨"pending"⟩⟩, ⟨2, some ⟨"completed"⟩⟩, ⟨5, some ⟨"cancelled"⟩⟩] }

/-- An available item with no quantity cap but plenty of order history. -/
def c7Row : StoreRow :=
  { id := "i2", name := "Japchae", name_ko := none, description := none
    description_ko := none, price := 0, image := none, quantity := none
    is_available := true
    order_items := some [⟨7, some ⟨"pending"⟩⟩, ⟨4, some ⟨"completed"⟩⟩] }

/-- An item hidden from the storefront (`is_available = false`). -/
def c8Row : StoreRow :=
  { id := "i3", name := "Mandu", name_ko := none, description := none
    description_ko := none, price := 0, image := none, quantity := none
    is_available := false, order_items := none }

/-- A form whose price text is wholly non-numeric. -/
def c3Form : FormData := { emptyForm with price := "abc" }

/-- An existing item carrying a stored image reference. -/
def c4Row : MgmtRow :=
  { id := "m1", vendor_id := "v1", name := "Kimchi", name_ko := none
    description := none, description_ko := none, price := .finite 3
    category := "Side", is_available := true, image := some "/old.png" }

/-- An open dialog with a partly filled form. -/
def c5State : AdminState :=
  { initialAdminState with
    isDialogOpen := true
    loading := false
    formData := { emptyForm with name := "Bulgogi", price := "12.5" } }

/-- The rational 5/2, i.e. the double 2.5. -/
def c9Q : ℚ := ⟨5, 2, by decide, by decide⟩

/-- An existing item priced 2.5. -/
def c9Row : MgmtRow :=
  { id := "m2", vendor_id := "v1", name := "Tea", name_ko := none
    description := none, description_ko := none, price := .finite c9Q
    category := "Drink", is_available := true, image := none }

/-- A form with empty localized name and descriptions. -/
def c10Form : FormData :=
  { name := "Tteok", name_ko := "", description := "", description_ko := ""
    price := "3", category := "Dessert", is_available := true }

/-! ## Helper lemmas: digit characters -/

theorem charOfDigit_props {d : ℕ} (hd : d < 10) :
    (charOfDigit d).isDigit = true ∧ digitVal (charOfDigit d) = d ∧
    charOfDigit d ≠ '-' ∧ charOfDigit d ≠ '+' ∧ charOfDigit d ≠ 'I' ∧
    (charOfDigit d).isWhitespace = false := by
  interval_cases d <;> decide

theorem parseDigits_digits_append {ds : List ℕ} {rest : List Char}
    (hds : ∀ d ∈ ds, d < 10)
    (hrest : ∀ c, rest.head? = some c → c.isDigit = false) :
    parseDigits (ds.map charOfDigit ++ rest) = (ds, rest) := by
  induction ds with
  | nil =>
    cases rest with
    | nil => rfl
    | cons c cs =>
      have hc := hrest c rfl
      simp [parseDigits, hc]
  | cons d ds ih =>
    have hd := charOfDigit_props (hds d (by simp))
    simp [parseDigits, hd.1, ih (fun x hx => hds x (List.mem_cons_of_mem _ hx)), hd.2.1]

/-! ## Helper lemmas: digit-list values -/

theorem foldl_beVal (ds : List ℕ) :
    ∀ a, ds.foldl (fun a d => 10 * a + d) a = a * 10 ^ ds.length + beVal ds := by
  induction ds with
  | nil => intro a; simp [beVal]
  | cons d ds ih =>
    intro a
    have h1 : beVal (d :: ds) = d * 10 ^ ds.length + beVal ds := by
      show ds.foldl (fun a d => 10 * a + d) (10 * 0 + d) = _
      rw [ih (10 * 0 + d)]; ring
    simp only [List.foldl_cons, List.length_cons, h1]
    rw [ih (10 * a + d)]; ring

theorem beVal_cons (d : ℕ) (ds : List ℕ) :
    beVal (d :: ds) = d * 10 ^ ds.length + beVal ds := by
  show ds.foldl (fun a d => 10 * a + d) (10 * 0 + d) = _
  rw [foldl_beVal ds (10 * 0 + d)]; ring

theorem beVal_append (xs ys : List ℕ) :
    beVal (xs ++ ys) = beVal xs * 10 ^ ys.length + beVal ys := by
  show (xs ++ ys).foldl (fun a d => 10 * a + d) 0 = _
  rw [List.foldl_append, ← beVal, foldl_beVal]

theorem beVal_replicate_zero (j : ℕ) (ds : List ℕ) :
    beVal (List.replicate j 0 ++ ds) = beVal ds := by
  rw [beVal_append]
  have h : beVal (List.replicate j 0) = 0 := by
    induction j with
    | zero => rfl
    | succ j ih => rw [List.replicate_succ, beVal_cons, ih]; ring
  rw [h]; ring

theorem fracVal_eq (ds : List ℕ) :
    fracVal ds = (beVal ds : ℚ) / 10 ^ ds.length := by
  induction ds with
  | nil => simp [fracVal, beVal]
  | cons d ds ih =>
    have hcons : fracVal (d :: ds) = ((d : ℚ) + fracVal ds) / 10 := rfl
    have h10 : ((10 : ℚ) ^ ds.length) ≠ 0 := by positivity
    rw [hcons, ih, beVal_cons]
    push_cast
    rw [add_div' _ _ _ h10, div_div, List.length_cons, pow_succ]

/-! ## Helper lemmas: decimal digit extraction -/

theorem natDigitsAux_bound : ∀ fuel n, ∀ d ∈ natDigitsAux fuel n, d < 10 := by
  intro fuel
  induction fuel with
  | zero => intro n d hd; simp [natDigitsAux] at hd
  | succ fuel ih =>
    intro n d hd
    cases n with
    | zero => simp [natDigitsAux] at hd
    | succ m =>
      simp only [natDigitsAux, List.mem_cons] at hd
      rcases hd with h | h
      · omega
      · exact ih _ _ h

theorem natDigits_bound (n : ℕ) : ∀ d ∈ natDigits n, d < 10 :=
  natDigitsAux_bound n n

theorem beVal_reverse_natDigitsAux :
    ∀ fuel n, n ≤ fuel → beVal (natDigitsAux fuel n).reverse = n := by
  intro fuel
  induction fuel with
  | zero => intro n hn; interval_cases n; rfl
  | succ fuel ih =>
    intro n hn
    cases n with
    | zero => rfl
    | succ m =>
      have hdiv : (m + 1) / 10 ≤ fuel := by
        have := Nat.div_lt_self (Nat.succ_pos m) (by norm_num : 1 < 10)
        omega
      simp only [natDigitsAux, List.reverse_cons]
      rw [beVal_append, ih _ hdiv]
      have hx : beVal [(m + 1) % 10] = (m + 1) % 10 := by
        show 10 * 0 + (m + 1) % 10 = _
        ring
      rw [hx]
      simp only [List.length_cons, List.length_nil, pow_one]
      omega

theorem beVal_reverse_natDigits (n : ℕ) : beVal (natDigits n).reverse = n :=
  beVal_reverse_natDigitsAux n n le_rfl

theorem natDigitsAux_length_le :
    ∀ fuel n k, n ≤ fuel → n < 10 ^ k → (natDigitsAux fuel n).length ≤ k := by
  intro fuel
  induction fuel with
  | zero => intro n k _ _; simp [natDigitsAux]
  | succ fuel ih =>
    intro n k hn hk
    cases n with
    | zero => simp [natDigitsAux]
    | succ m =>
      cases k with
      | zero => simp at hk
      | succ j =>
        have hdiv : (m + 1) / 10 ≤ fuel := by
          have := Nat.div_lt_self (Nat.succ_pos m) (by norm_num : 1 < 10)
          omega
        have hlt : (m + 1) / 10 < 10 ^ j := by
          rw [Nat.div_lt_iff_lt_mul (by norm_num : 0 < 10)]
          calc m + 1 < 10 ^ (j + 1) := hk
          _ = 10 ^ j * 10 := by ring
        simpa [natDigitsAux] using ih _ j hdiv hlt

theorem natDigits_length_le {n k : ℕ} (h : n < 10 ^ k) :
    (natDigits n).length ≤ k :=
  natDigitsAux_length_le n n k le_rfl h

theorem natDigitsBE_ne_nil (n : ℕ) : natDigitsBE n ≠ [] := by
  unfold natDigitsBE
  split
  · simp
  · rename_i h
    cases n with
    | zero => exact absurd rfl h
    | succ m => simp [natDigits, natDigitsAux]

theorem natDigitsBE_bound (n : ℕ) : ∀ d ∈ natDigitsBE n, d < 10 := by
  intro d hd
  unfold natDigitsBE at hd
  split at hd
  · simp at hd; omega
  · exact natDigits_bound n d (List.mem_reverse.mp hd)

theorem beVal_natDigitsBE (n : ℕ) : beVal (natDigitsBE n) = n := by
  unfold natDigitsBE
  split
  · rename_i h
    subst h
    rfl
  · exact beVal_reverse_natDigits n

theorem fracDigitsBE_bound (k m : ℕ) : ∀ d ∈ fracDigitsBE k m, d < 10 := by
  intro d hd
  unfold fracDigitsBE at hd
  rcases List.mem_append.mp hd with h | h
  · have := List.eq_of_mem_replicate h
    omega
  · exact natDigits_bound m d (List.mem_reverse.mp h)

theorem beVal_fracDigitsBE (k m : ℕ) : beVal (fracDigitsBE k m) = m := by
  unfold fracDigitsBE
  rw [beVal_replicate_zero, beVal_reverse_natDigits]

theorem fracDigitsBE_length {k m : ℕ} (h : m < 10 ^ k) :
    (fracDigitsBE k m).length = k := by
  have hlen := natDigits_length_le h
  unfold fracDigitsBE
  simp only [List.length_append, List.length_replicate, List.length_reverse]
  omega

/-! ## Helper lemmas: parsing a rendered decimal -/

theorem infChars_not_prefix {c : Char} (h : c ≠ 'I') (cs : List Char) :
    ¬ (infChars <+: (c :: cs)) := by
  rintro ⟨t, ht⟩
  rw [show infChars = 'I' :: ['n', 'f', 'i', 'n', 'i', 't', 'y'] from rfl,
    List.cons_append] at ht
  injection ht with h1 _
  exact h h1.symm

theorem jsParseAfterSign_int_frac (neg : Bool) (ds fs : List ℕ)
    (hds : ∀ d ∈ ds, d < 10) (hfs : ∀ d ∈ fs, d < 10) (hne : ds ≠ []) :
    jsParseAfterSign neg (ds.map charOfDigit ++ '.' :: fs.map charOfDigit) =
      .finite (if neg then -((beVal ds : ℚ) + fracVal fs) else (beVal ds : ℚ) + fracVal fs) := by
  obtain ⟨d0, ds0, rfl⟩ : ∃ d0 ds0, ds = d0 :: ds0 := by
    cases ds with
    | nil => exact absurd rfl hne
    | cons x xs => exact ⟨x, xs, rfl⟩
  have hd0 := charOfDigit_props (hds d0 (by simp))
  have hpre : ¬ (infChars <+:
      charOfDigit d0 :: (List.map charOfDigit ds0 ++ '.' :: List.map charOfDigit fs)) :=
    infChars_not_prefix hd0.2.2.2.2.1 _
  have hint : parseDigits
      (charOfDigit d0 :: (List.map charOfDigit ds0 ++ '.' :: List.map charOfDigit fs)) =
      (d0 :: ds0, '.' :: List.map charOfDigit fs) := by
    have h := @parseDigits_digits_append (d0 :: ds0) ('.' :: List.map charOfDigit fs) hds
      (fun c hc => by
        simp only [List.head?_cons, Option.some.injEq] at hc
        subst hc
        decide)
    simpa using h
  have hfracd : parseDigits (List.map charOfDigit fs) = (fs, []) := by
    have h := @parseDigits_digits_append fs [] hfs (fun c hc => by simp at hc)
    rwa [List.append_nil] at h
  have hfrac : parseFrac ('.' :: List.map charOfDigit fs) = (fs, []) := by
    simp [parseFrac, hfracd]
  have hexp : parseExpPart [] = 0 := rfl
  simp [jsParseAfterSign, hpre, hint, hfrac, hexp]

theorem jsParseAfterSign_int (neg : Bool) (ds : List ℕ)
    (hds : ∀ d ∈ ds, d < 10) (hne : ds ≠ []) :
    jsParseAfterSign neg (ds.map charOfDigit) =
      .finite (if neg then -(beVal ds : ℚ) else (beVal ds : ℚ)) := by
  obtain ⟨d0, ds0, rfl⟩ : ∃ d0 ds0, ds = d0 :: ds0 := by
    cases ds with
    | nil => exact absurd rfl hne
    | cons x xs => exact ⟨x, xs, rfl⟩
  have hd0 := charOfDigit_props (hds d0 (by simp))
  have hpre : ¬ (infChars <+: charOfDigit d0 :: List.map charOfDigit ds0) :=
    infChars_not_prefix hd0.2.2.2.2.1 _
  have hint : parseDigits (charOfDigit d0 :: List.map charOfDigit ds0) =
      (d0 :: ds0, []) := by
    have h := @parseDigits_digits_append (d0 :: ds0) [] hds (fun c hc => by simp at hc)
    simpa using h
  have hfrac : parseFrac ([] : List Char) = ([], []) := rfl
  have hexp : parseExpPart [] = 0 := rfl
  have hf0 : fracVal [] = 0 := rfl
  simp [jsParseAfterSign, hpre, hint, hfrac, hexp, hf0]

theorem jsParseFloatChars_digit_head (ds : List ℕ) (rest : List Char)
    (hds : ∀ d ∈ ds, d < 10) (hne : ds ≠ []) :
    jsParseFloatChars (ds.map charOfDigit ++ rest) =
      jsParseAfterSign false (ds.map charOfDigit ++ rest) := by
  obtain ⟨d0, ds0, rfl⟩ : ∃ d0 ds0, ds = d0 :: ds0 := by
    cases ds with
    | nil => exact absurd rfl hne
    | cons x xs => exact ⟨x, xs, rfl⟩
  have hd0 := charOfDigit_props (hds d0 (by simp))
  unfold jsParseFloatChars
  rw [List.map_cons, List.cons_append]
  rw [List.dropWhile_cons_of_neg (by simp [hd0.2.2.2.2.2])]
  simp [parseSign, hd0.2.2.1, hd0.2.2.2.1]

theorem jsParseFloatChars_neg_digit_head (ds : List ℕ) (rest : List Char) :
    jsParseFloatChars ('-' :: (ds.map charOfDigit ++ rest)) =
      jsParseAfterSign true (ds.map charOfDigit ++ rest) := by
  unfold jsParseFloatChars
  rw [List.dropWhile_cons_of_neg (by decide)]
  simp [parseSign]

/-! ## Helper lemmas: clearing a ten-smooth denominator -/

theorem dvd_ten_pow_self {d j : ℕ} (h : d ∣ 10 ^ j) : d ∣ 10 ^ d := by
  have h' : d ∣ 2 ^ j * 5 ^ j := by
    rw [← mul_pow]
    exact_mod_cast h
  obtain ⟨d₁, d₂, h₁, h₂, rfl⟩ := exists_dvd_and_dvd_of_dvd_mul h'
  obtain ⟨x, _, rfl⟩ := (Nat.dvd_prime_pow Nat.prime_two).1 h₁
  obtain ⟨y, _, rfl⟩ := (Nat.dvd_prime_pow Nat.prime_five).1 h₂
  rw [show (10 : ℕ) = 2 * 5 from rfl, mul_pow]
  have hx : x ≤ 2 ^ x * 5 ^ y := by
    have h1 : x < 2 ^ x := Nat.lt_two_pow x
    have h2 : 2 ^ x ≤ 2 ^ x * 5 ^ y := Nat.le_mul_of_pos_right _ (pow_pos (by norm_num) y)
    omega
  have hy : y ≤ 2 ^ x * 5 ^ y := by
    have h1 : y < 2 ^ y := Nat.lt_two_pow y
    have h2 : 2 ^ y ≤ 5 ^ y := Nat.pow_le_pow_left (by norm_num) y
    have h3 : 5 ^ y ≤ 2 ^ x * 5 ^ y := Nat.le_mul_of_pos_left _ (pow_pos (by norm_num) x)
    omega
  exact mul_dvd_mul (pow_dvd_pow 2 hx) (pow_dvd_pow 5 hy)

theorem find?_ten_pow (d : ℕ) (h : d ∣ 10 ^ d) :
    ∃ k, (List.range (d + 1)).find? (fun k => decide (d ∣ 10 ^ k)) = some k ∧
      d ∣ 10 ^ k := by
  have hsome : ((List.range (d + 1)).find? (fun k => decide (d ∣ 10 ^ k))).isSome := by
    rw [List.find?_isSome]
    exact ⟨d, by simp, by simpa using h⟩
  obtain ⟨k, hk⟩ := Option.isSome_iff_exists.1 hsome
  refine ⟨k, hk, ?_⟩
  have := List.find?_some hk
  simpa using this

theorem toNat_num_scaled (a : ℚ) (k : ℕ) (ha : 0 ≤ a) (hd : a.den ∣ 10 ^ k) :
    (((a * (10 : ℚ) ^ k).num.toNat : ℕ) : ℚ) = a * 10 ^ k := by
  obtain ⟨c, hc⟩ := hd
  have hden : ((a.den : ℚ)) ≠ 0 := by
    exact_mod_cast a.den_nz
  have hmul : a * ((a.den : ℚ)) = (a.num : ℚ) := by
    have h := Rat.num_div_den a
    calc a * ((a.den : ℚ)) = ((a.num : ℚ) / (a.den : ℚ)) * ((a.den : ℚ)) := by rw [h]
      _ = (a.num : ℚ) := div_mul_cancel₀ _ hden
  have h2 : a * (10 : ℚ) ^ k = ((a.num * c : ℤ) : ℚ) := by
    have h1 : (10 : ℚ) ^ k = ((10 ^ k : ℕ) : ℚ) := by push_cast; ring
    rw [h1, hc]
    push_cast
    rw [← mul_assoc, hmul]
  have hnum : 0 ≤ a.num := Rat.num_nonneg.mpr ha
  have hge : 0 ≤ a.num * (c : ℤ) := mul_nonneg hnum (Int.natCast_nonneg c)
  rw [h2, Rat.num_intCast]
  rw [show (((a.num * (c : ℤ)).toNat : ℕ) : ℚ) = (((a.num * (c : ℤ)).toNat : ℤ) : ℚ) by push_cast; ring]
  rw [Int.toNat_of_nonneg hge]

/-! ## The decimal round trip -/

theorem jsNumToChars_finite_eq (q : ℚ) (k : ℕ)
    (hfind : (List.range (|q|.den + 1)).find? (fun k => decide (|q|.den ∣ 10 ^ k)) = some k) :
    jsNumToChars (.finite q) = renderFinite q k := by
  have h : jsNumToChars (.finite q) =
      match (List.range (|q|.den + 1)).find? (fun k => decide (|q|.den ∣ 10 ^ k)) with
      | none => ['?']
      | some k => renderFinite q k := rfl
  rw [h, hfind]

theorem jsParseFloat_roundtrip (q : ℚ) (hsm : ∃ j, q.den ∣ 10 ^ j) :
    jsParseFloat (jsNumToString (.finite q)) = .finite q := by
  have hdata : (jsNumToString (.finite q)).data = jsNumToChars (.finite q) := rfl
  rw [jsParseFloat, hdata]
  have habs_den : |q|.den = q.den := by
    rcases abs_cases q with ⟨h1, _⟩ | ⟨h1, _⟩
    · rw [h1]
    · rw [h1, Rat.den_neg_eq_den]
  obtain ⟨j, hj⟩ := hsm
  have hself : |q|.den ∣ 10 ^ |q|.den := by
    rw [habs_den]
    exact dvd_ten_pow_self hj
  obtain ⟨k, hfind, hk⟩ := find?_ten_pow |q|.den hself
  have hnq : (((|q| * (10 : ℚ) ^ k).num.toNat : ℕ) : ℚ) = |q| * 10 ^ k :=
    toNat_num_scaled |q| k (abs_nonneg q) hk
  set n : ℕ := (|q| * (10 : ℚ) ^ k).num.toNat with hn
  rw [jsNumToChars_finite_eq q k hfind, renderFinite]
  simp only [← hn]
  by_cases hk0 : k = 0
  · subst hk0
    have hval : ((beVal (natDigitsBE n) : ℕ) : ℚ) = |q| := by
      rw [beVal_natDigitsBE]
      rw [pow_zero, mul_one] at hnq
      exact hnq
    rw [if_pos rfl]
    rcases lt_or_le q 0 with hq | hq
    · rw [if_pos hq, natToChars]
      have h1 := jsParseFloatChars_neg_digit_head (natDigitsBE n) []
      rw [List.append_nil] at h1
      rw [List.singleton_append, h1,
        jsParseAfterSign_int true _ (natDigitsBE_bound n) (natDigitsBE_ne_nil n)]
      rw [if_pos rfl, hval, abs_of_neg hq, neg_neg]
    · rw [if_neg (not_lt.mpr hq), List.nil_append, natToChars]
      have h1 := jsParseFloatChars_digit_head (natDigitsBE n) []
        (natDigitsBE_bound n) (natDigitsBE_ne_nil n)
      rw [List.append_nil] at h1
      rw [h1, jsParseAfterSign_int false _ (natDigitsBE_bound n) (natDigitsBE_ne_nil n)]
      rw [if_neg (by simp), hval, abs_of_nonneg hq]
  · have hpow : (0 : ℕ) < 10 ^ k := pow_pos (by norm_num) k
    have hmod : n % 10 ^ k < 10 ^ k := Nat.mod_lt n hpow
    have h10 : ((10 : ℚ) ^ k) ≠ 0 := by positivity
    have hfracval : fracVal (fracDigitsBE k (n % 10 ^ k)) =
        ((n % 10 ^ k : ℕ) : ℚ) / 10 ^ k := by
      rw [fracVal_eq, beVal_fracDigitsBE, fracDigitsBE_length hmod]
    have hdm2 : ((n / 10 ^ k : ℕ) : ℚ) * 10 ^ k + ((n % 10 ^ k : ℕ) : ℚ) = (n : ℚ) := by
      have hdm : 10 ^ k * (n / 10 ^ k) + n % 10 ^ k = n := Nat.div_add_mod n (10 ^ k)
      have h := congrArg (fun m : ℕ => (m : ℚ)) hdm
      push_cast at h
      linear_combination h
    have hsum : ((beVal (natDigitsBE (n / 10 ^ k)) : ℕ) : ℚ) +
        fracVal (fracDigitsBE k (n % 10 ^ k)) = |q| := by
      rw [beVal_natDigitsBE, hfracval]
      calc ((n / 10 ^ k : ℕ) : ℚ) + ((n % 10 ^ k : ℕ) : ℚ) / 10 ^ k
          = (((n / 10 ^ k : ℕ) : ℚ) * 10 ^ k + ((n % 10 ^ k : ℕ) : ℚ)) / 10 ^ k := by
            rw [add_div, mul_div_cancel_right₀ _ h10]
        _ = ((n : ℕ) : ℚ) / 10 ^ k := by rw [hdm2]
        _ = (|q| * 10 ^ k) / 10 ^ k := by rw [hnq]
        _ = |q| := mul_div_cancel_right₀ _ h10
    rw [if_neg hk0]
    rcases lt_or_le q 0 with hq | hq
    · rw [if_pos hq, natToChars, List.singleton_append, List.cons_append,
        jsParseFloatChars_neg_digit_head,
        jsParseAfterSign_int_frac true _ _ (natDigitsBE_bound _) (fracDigitsBE_bound _ _)
          (natDigitsBE_ne_nil _)]
      rw [if_pos rfl, hsum, abs_of_neg hq, neg_neg]
    · rw [if_neg (not_lt.mpr hq), List.nil_append, natToChars]
      rw [jsParseFloatChars_digit_head _ _ (natDigitsBE_bound _) (natDigitsBE_ne_nil _),
        jsParseAfterSign_int_frac false _ _ (natDigitsBE_bound _) (fracDigitsBE_bound _ _)
          (natDigitsBE_ne_nil _)]
      rw [if_neg (by simp), hsum, abs_of_nonneg hq]

/-! ## Helper lemmas: wholly non-numeric input parses to NaN -/

theorem parseSign_snd_subset (cs : List Char) : ∀ c ∈ (parseSign cs).2, c ∈ cs := by
  cases cs with
  | nil => simp [parseSign]
  | cons c0 r =>
    intro c hc
    simp only [parseSign] at hc
    split_ifs at hc
    · exact List.mem_cons_of_mem _ hc
    · exact List.mem_cons_of_mem _ hc
    · exact hc

theorem jsParseAfterSign_nan (neg : Bool) (cs : List Char)
    (h : ∀ c ∈ cs, c.isDigit = false ∧ c ≠ 'I') : jsParseAfterSign neg cs = .nan := by
  have hpre : ¬ (infChars <+: cs) := by
    cases cs with
    | nil =>
      intro hp
      exact absurd (List.eq_nil_of_prefix_nil hp) (by decide)
    | cons c r => exact infChars_not_prefix (h c (by simp)).2 r
  have hint : parseDigits cs = ([], cs) := by
    cases cs with
    | nil => rfl
    | cons c r => simp [parseDigits, (h c (by simp)).1]
  have hfrac : (parseFrac cs).1 = [] := by
    cases cs with
    | nil => rfl
    | cons c r =>
      by_cases hdot : c = '.'
      · subst hdot
        simp only [parseFrac, if_pos rfl]
        cases r with
        | nil => rfl
        | cons c2 r2 => simp [parseDigits, (h c2 (by simp)).1]
      · simp [parseFrac, hdot]
  simp [jsParseAfterSign, hpre, hint, hfrac]

theorem jsParseFloat_nan_of_nonnumeric (s : String)
    (h : ∀ c ∈ s.data, c.isDigit = false ∧ c ≠ 'I') :
    jsParseFloat s = .nan := by
  rw [jsParseFloat]
  unfold jsParseFloatChars
  refine jsParseAfterSign_nan _ _ ?_
  intro c hc
  exact h c ((List.dropWhile_suffix _).sublist.subset (parseSign_snd_subset _ c hc))

/-! ## Helper lemmas: the stock aggregation as a filtered sum -/

theorem totalOrdered_foldl (l : List OrderItemJoin) :
    ∀ a : ℤ,
      l.foldl
        (fun sum oi =>
          match oi.order with
          | some o =>
            if o.status = "completed" ∨ o.status = "pending" then sum + oi.quantity
            else sum
          | none => sum)
        a =
      a + (((l.filter countsTowardStock).map (fun oi => oi.quantity)).sum) := by
  induction l with
  | nil => intro a; simp
  | cons oi l ih =>
    intro a
    rw [List.foldl_cons]
    rcases hoi : oi.order with _ | o
    · have hc : countsTowardStock oi = false := by simp [countsTowardStock, hoi]
      simp only [hoi, List.filter_cons, hc]
      rw [ih a]
      simp
    · by_cases hst : o.status = "completed" ∨ o.status = "pending"
      · have hc : countsTowardStock oi = true := by simp [countsTowardStock, hoi, hst]
        simp only [hoi, if_pos hst, List.filter_cons, hc]
        rw [ih (a + oi.quantity)]
        simp only [if_true, List.map_cons, List.sum_cons]
        ring
      · have hc : countsTowardStock oi = false := by simp [countsTowardStock, hoi, hst]
        simp only [hoi, if_neg hst, List.filter_cons, hc]
        rw [ih a]
        simp

theorem totalOrdered_eq_sum (ois : Option (List OrderItemJoin)) :
    totalOrdered ois =
      ((((ois.getD []).filter countsTowardStock).map (fun oi => oi.quantity)).sum) := by
  cases ois with
  | none => rfl
  | some l =>
    have h := totalOrdered_foldl l 0
    rw [totalOrdered]
    rw [h]
    simp

/-! ## Helper lemmas: empty-string normalisation -/

theorem strOrNull_ne_empty (s : String) : strOrNull s ≠ some "" := by
  unfold strOrNull
  split
  · simp
  · rename_i h
    simpa using h

theorem strOrNull_empty : strOrNull "" = none := rfl

/-! ## The claims -/

/-- C1: for every fetched available menu item with a non-null quantity
cap, the derived remaining quantity equals max(0, cap minus the sum of
quantities over the item's order items whose order status is pending or
completed); order items on orders of any other status contribute nothing
to the sum. -/
theorem storefront_remaining_eq_cap_sub_counted (r : StoreRow) (cap : ℤ)
    (hcap : r.quantity = some cap) :
    (mapStoreItem r).remainingQuantity =
      some (max 0 (cap -
        ((((r.order_items.getD []).filter countsTowardStock).map
          (fun oi => oi.quantity)).sum))) := by
  simp [mapStoreItem, hcap, totalOrdered_eq_sum]

/-- C1 witness: cap 10 with order items 3 (pending), 2 (completed) and
5 (cancelled) yields remaining quantity 5. -/
theorem storefront_remaining_eq_cap_sub_counted_witness :
    c1Row.quantity = some 10 ∧ (mapStoreItem c1Row).remainingQuantity = some 5 :=
  ⟨rfl, (storefront_remaining_eq_cap_sub_counted c1Row 10 rfl).trans (by decide)⟩

/-- C7: for every fetched available menu item whose quantity cap is null,
the derived remaining quantity is null, regardless of order history. -/
theorem storefront_remaining_none_of_no_cap (r : StoreRow)
    (hcap : r.quantity = none) :
    (mapStoreItem r).remainingQuantity = none := by
  simp [mapStoreItem, hcap]

/-- C7 witness: an uncapped item with pending and completed orders still
derives an unbounded remaining quantity. -/
theorem storefront_remaining_none_of_no_cap_witness :
    c7Row.quantity = none ∧ (mapStoreItem c7Row).remainingQuantity = none :=
  ⟨rfl, storefront_remaining_none_of_no_cap c7Row rfl⟩

/-- C8: a storefront fetch that succeeds with zero available items
produces an empty item list and renders the grid in its ready state with
no failure notification, not the error state. -/
theorem storefront_empty_fetch_renders_empty_grid (db : List StoreRow)
    (h : ∀ r ∈ db, r.is_available = false) :
    storefrontQueryFn (.ok (some (storefrontSelect db))) = .ok [] ∧
    renderAfterFetch (.ok (some (storefrontSelect db))) =
      { view := .grid [], failureToasts := 0 } := by
  have hempty : storefrontSelect db = [] := by
    rw [storefrontSelect]
    rw [List.filter_eq_nil_iff]
    intro r hr
    simp [h r hr]
  constructor
  · rw [hempty]
    rfl
  · rw [hempty]
    rfl

/-- C8 witness: a database holding only an unavailable item renders the
empty grid with no failure toast. -/
theorem storefront_empty_fetch_renders_empty_grid_witness :
    renderAfterFetch (.ok (some (storefrontSelect [c8Row]))) =
      { view := .grid [], failureToasts := 0 } :=
  (storefront_empty_fetch_renders_empty_grid [c8Row] (by decide)).2

/-- C2 counterexample: a vendor-lookup failure that resolves with no
vendor row (the `{ data, error }` shape of the remote client, whose
`error` the code never reads) stops the loading state but surfaces zero
failure notifications, refuting the claim that every load failure
surfaces exactly one. -/
theorem admin_load_failure_counterexample :
    (applyLoad initialAdminState .noVendor).loading = false ∧
    (applyLoad initialAdminState .noVendor).toasts = [] :=
  ⟨rfl, rfl⟩

/-- C2 amended: a load whose remote `await` throws stops loading, leaves
the list unchanged and surfaces exactly one failure notification; a
vendor-lookup failure that resolves with no vendor row stops loading
silently with the list unchanged; an items query that resolves with null
data stops loading silently and sets the list to empty. -/
theorem admin_load_failure_amended (s : AdminState) :
    applyLoad s .throwEx =
      { s with loading := false, toasts := s.toasts ++ [loadFailToast] } ∧
    applyLoad s .noVendor = { s with loading := false } ∧
    applyLoad s (.ok none) = { s with loading := false, menuItems := [] } :=
  ⟨rfl, rfl, rfl⟩

/-- C3: the submit handler writes `parseFloat` of the price text with no
validation, and a wholly non-numeric price text (no digit, no Infinity
literal) yields a NaN value written to the remote store. -/
theorem admin_submit_price_unvalidated (vid : String) (fd : FormData)
    (img : Option String) :
    (buildMenuItemData vid fd img).price = jsParseFloat fd.price ∧
    ((∀ c ∈ fd.price.data, c.isDigit = false ∧ c ≠ 'I') →
      (buildMenuItemData vid fd img).price = .nan) := by
  refine ⟨rfl, fun h => ?_⟩
  show jsParseFloat fd.price = .nan
  exact jsParseFloat_nan_of_nonnumeric _ h

/-- C3 witness: submitting the price text `"abc"` writes NaN. -/
theorem admin_submit_price_unvalidated_witness :
    (buildMenuItemData "v1" c3Form none).price = .nan :=
  (admin_submit_price_unvalidated "v1" c3Form none).2 (by decide)

/-- C4: on submit, a selected image is uploaded under the freshly
generated name `uuid.ext` and its public reference becomes the item's
image; with no selection while editing, the previously stored reference
is submitted unchanged; with no selection while creating, the image is
left unset. -/
theorem admin_submit_image_selection (e : Option MgmtRow) (img : Option String)
    (uuid : String) :
    (∀ f, img = some f →
      submitImageUrl e img uuid = some (publicUrlFor (uploadFileName uuid f))) ∧
    (∀ it, e = some it → img = none → submitImageUrl e img uuid = it.image) ∧
    (e = none → img = none → submitImageUrl e img uuid = none) := by
  refine ⟨fun f hf => ?_, fun it he hi => ?_, fun he hi => ?_⟩
  · subst hf; rfl
  · subst he; subst hi; rfl
  · subst he; subst hi; rfl

/-- C4 witness: editing without a new image keeps the stored reference;
creating with a selected image uses the public URL of the fresh name. -/
theorem admin_submit_image_selection_witness :
    submitImageUrl (some c4Row) none "u123" = some "/old.png" ∧
    submitImageUrl none (some "photo.png") "u123" =
      some (publicUrlFor (uploadFileName "u123" "photo.png")) :=
  ⟨((admin_submit_image_selection (some c4Row) none "u123").2.1 c4Row rfl rfl).trans rfl,
   (admin_submit_image_selection none (some "photo.png") "u123").1 "photo.png" rfl⟩

/-- C5: every failed save (any failure along the submit chain) surfaces
the generic failure toast and leaves the rest of the state unchanged:
the dialog stays as it was, the edit state, selected image, form fields
and list are intact, and no reload happens. -/
theorem admin_submit_failure_preserves_state (s : AdminState) (o : SubmitOutcome)
    (h : o.isFailure = true) :
    handleSubmitStep s o = { s with toasts := s.toasts ++ [saveFailToast] } ∧
    (handleSubmitStep s o).isDialogOpen = s.isDialogOpen ∧
    (handleSubmitStep s o).editingItem = s.editingItem ∧
    (handleSubmitStep s o).selectedImage = s.selectedImage ∧
    (handleSubmitStep s o).formData = s.formData ∧
    (handleSubmitStep s o).menuItems = s.menuItems ∧
    (handleSubmitStep s o).toasts = s.toasts ++ [saveFailToast] := by
  cases o with
  | saveOk lo => simp [SubmitOutcome.isFailure] at h
  | vendorThrow => exact ⟨rfl, rfl, rfl, rfl, rfl, rfl, rfl⟩
  | vendorNotFound => exact ⟨rfl, rfl, rfl, rfl, rfl, rfl, rfl⟩
  | uploadThrow => exact ⟨rfl, rfl, rfl, rfl, rfl, rfl, rfl⟩
  | saveErr => exact ⟨rfl, rfl, rfl, rfl, rfl, rfl, rfl⟩

/-- C5 witness: a rejected save on an open dialog only appends the
failure toast. -/
theorem admin_submit_failure_preserves_state_witness :
    handleSubmitStep c5State .saveErr =
      { c5State with toasts := c5State.toasts ++ [saveFailToast] } :=
  (admin_submit_failure_preserves_state c5State .saveErr rfl).1

/-- C6: after a successful load, the displayed list is exactly the rows
whose vendor identifier is the resolved vendor's (as a permutation of
the filtered database, with membership both ways) sorted by category
ascending. -/
theorem admin_load_success_filtered_sorted (s : AdminState) (db : List MgmtRow)
    (vid : String) :
    (applyLoad s (.ok (some (menuItemsQuery db vid)))).menuItems =
      menuItemsQuery db vid ∧
    ((applyLoad s (.ok (some (menuItemsQuery db vid)))).menuItems).Perm
      (db.filter (fun r => r.vendor_id = vid)) ∧
    List.Sorted (fun a b : MgmtRow => a.category ≤ b.category)
      ((applyLoad s (.ok (some (menuItemsQuery db vid)))).menuItems) ∧
    (∀ r : MgmtRow,
      r ∈ (applyLoad s (.ok (some (menuItemsQuery db vid)))).menuItems ↔
        (r ∈ db ∧ r.vendor_id = vid)) := by
  haveI : IsTotal MgmtRow (fun a b => a.category ≤ b.category) :=
    ⟨fun a b => le_total _ _⟩
  haveI : IsTrans MgmtRow (fun a b => a.category ≤ b.category) :=
    ⟨fun a b c h1 h2 => le_trans h1 h2⟩
  refine ⟨rfl, ?_, ?_, ?_⟩
  · exact List.perm_insertionSort _ _
  · exact List.sorted_insertionSort _ _
  · intro r
    show r ∈ menuItemsQuery db vid ↔ _
    unfold menuItemsQuery
    rw [(List.perm_insertionSort _ _).mem_iff, List.mem_filter]
    simp

/-- C9: for an existing item with finite price q (any rational whose
denominator divides a power of ten, which covers every IEEE-754 double),
opening the edit form and submitting without touching the price field
writes back exactly q: editing never changes the price as a side effect. -/
theorem admin_edit_price_roundtrip (s : AdminState) (item : MgmtRow)
    (vid uuid : String) (q : ℚ) (hprice : item.price = .finite q)
    (hden : ∃ j, q.den ∣ 10 ^ j) :
    (submittedPayload (handleEdit s item) vid uuid).price = .finite q := by
  show jsParseFloat (handleEditForm item).price = .finite q
  show jsParseFloat (jsNumToString item.price) = .finite q
  rw [hprice]
  exact jsParseFloat_roundtrip q hden

/-- C9 witness: editing an item priced 5/2 (2.5) and submitting writes
back exactly 5/2. -/
theorem admin_edit_price_roundtrip_witness :
    (submittedPayload (handleEdit initialAdminState c9Row) "v1" "u1").price =
      .finite c9Q :=
  admin_edit_price_roundtrip initialAdminState c9Row "v1" "u1" c9Q rfl ⟨1, by decide⟩

/-- C10: on submit, empty-string localized name, description and
localized description are normalised to null, and the written record
never holds an empty string in those three fields. -/
theorem admin_submit_empty_strings_nulled (vid : String) (fd : FormData)
    (img : Option String) :
    ((buildMenuItemData vid fd img).name_ko ≠ some "" ∧
     (buildMenuItemData vid fd img).description ≠ some "" ∧
     (buildMenuItemData vid fd img).description_ko ≠ some "") ∧
    ((fd.name_ko = "" → (buildMenuItemData vid fd img).name_ko = none) ∧
     (fd.description = "" → (buildMenuItemData vid fd img).description = none) ∧
     (fd.description_ko = "" → (buildMenuItemData vid fd img).description_ko = none)) := by
  refine ⟨⟨strOrNull_ne_empty _, strOrNull_ne_empty _, strOrNull_ne_empty _⟩,
    ⟨fun h => ?_, fun h => ?_, fun h => ?_⟩⟩
  · show strOrNull fd.name_ko = none
    rw [h]
    exact strOrNull_empty
  · show strOrNull fd.description = none
    rw [h]
    exact strOrNull_empty
  · show strOrNull fd.description_ko = none
    rw [h]
    exact strOrNull_empty

/-- C10 witness: a form with empty localized fields stores null in all
three. -/
theorem admin_submit_empty_strings_nulled_witness :
    (buildMenuItemData "v1" c10Form none).name_ko = none ∧
    (buildMenuItemData "v1" c10Form none).description = none ∧
    (buildMenuItemData "v1" c10Form none).description_ko = none :=
  ⟨(admin_submit_empty_strings_nulled "v1" c10Form none).2.1 rfl,
   (admin_submit_empty_strings_nulled "v1" c10Form none).2.2.1 rfl,
   (admin_submit_empty_strings_nulled "v1" c10Form none).2.2.2 rfl⟩

end Gateway
